import Mathlib

/-!
Verification of the synchronization core of the mail-vault application.

The development shallowly embeds the Rust sources (src-tauri/src/imap/mod.rs,
src-tauri/src/main.rs, src-tauri/src/archive.rs, src-tauri/src/commands.rs,
src-tauri/src/imap/pool.rs) into Lean.  Pure functions become Lean functions;
the IMAP server, the file system and the connection pool become explicit
state / oracle parameters.  Machine integers (u32) are modelled as Nat with
explicit reduction modulo 2^32 exactly where the Rust code performs u32
arithmetic; the i64 intermediate computations are exact (Int).  External
libraries (the rfc2047 decoder, base64 transport, the wire protocol parser)
are elided at the data boundary: the model receives already-decoded values,
which is sound because no verified property inspects the decoded text.
-/

namespace MailVault

/- ── Character / string helpers (models of Rust `str` operations) ───────── -/

/-- Model of Rust `haystack.contains(needle)` on character lists:
substring containment (an empty needle is contained everywhere). -/
def containsSub (needle : List Char) : List Char → Bool
  | [] => needle.isEmpty
  | c :: t => needle.isPrefixOf (c :: t) || containsSub needle t

/-- Model of Rust `haystack.contains(needle)` on strings. -/
def strContains (hay needle : String) : Bool :=
  containsSub needle.toList hay.toList

/-- ASCII lowercasing, character by character (model of Rust
`to_lowercase` / `to_ascii_lowercase` on the ASCII protocol tokens this code
handles; Lean's `Char.toLower` lowers exactly the ASCII range). -/
def asciiToLower (s : String) : String :=
  String.mk (s.toList.map Char.toLower)

/-- Model of Rust `s.starts_with(p)`. -/
def strStartsWith (s p : String) : Bool :=
  p.toList.isPrefixOf s.toList

/-- Model of Rust `s.trim_start_matches('<').trim_end_matches('>')`:
strip every leading `<` and every trailing `>`. -/
def trim_angle_brackets (s : String) : String :=
  String.mk (((s.toList.dropWhile (fun c => c = '<')).reverse.dropWhile
    (fun c => c = '>')).reverse)

/-- Model of Rust `a.eq_ignore_ascii_case(b)`; Lean's `Char.toLower` lowers
exactly the ASCII range, matching the Rust semantics. -/
def eqIgnoreAsciiCase (a b : String) : Bool :=
  asciiToLower a == asciiToLower b

/- ── u32 arithmetic (Rust release semantics: wrap on overflow) ───────────── -/

def U32MOD : Nat := 4294967296

/-- u32 multiplication (wraps modulo 2^32). -/
def u32_mul (a b : Nat) : Nat := (a * b) % U32MOD

/-- u32 subtraction (wraps modulo 2^32). -/
def u32_sub (a b : Nat) : Nat := (((a : Int) - (b : Int)).emod (U32MOD : Int)).toNat

/-- The Rust cast `x as u32` applied to an i64 value (truncation mod 2^32;
every value cast in the embedded code is non-negative). -/
def i64_as_u32 (x : Int) : Nat := (x.emod (U32MOD : Int)).toNat

/- ── BODYSTRUCTURE model (imap_proto::types::BodyStructure) ──────────────── -/

structure BodyContentType where
  ty : String
  subtype : String
deriving Repr, DecidableEq

structure ContentDispositionData where
  ty : String
  params : Option (List (String × String))
deriving Repr, DecidableEq

structure BodyCommon where
  ty : BodyContentType
  disposition : Option ContentDispositionData
deriving Repr, DecidableEq

/-- The `other` fields of a non-multipart body part; only the Content-ID is
consulted by the embedded code. -/
structure BodyOther where
  id : Option String
deriving Repr, DecidableEq

inductive BodyStructure where
  | basic (common : BodyCommon) (other : BodyOther)
  | text (common : BodyCommon) (other : BodyOther)
  | message (common : BodyCommon) (other : BodyOther) (body : BodyStructure)
  | multipart (bodies : List BodyStructure)
deriving Repr

/-- The leaf case of `has_attachments_from_bodystructure` (the shared
`Basic | Text | Message` arm of the Rust match).  `bodyResult` is
`some r` when the part is a `Message` whose recursive result is `r`. -/
def hasAttachLeaf (common : BodyCommon) (other : BodyOther)
    (bodyResult : Option Bool) : Bool :=
  -- Explicit Content-Disposition: attachment → always counts
  if (match common.disposition with
      | some d => eqIgnoreAsciiCase d.ty "attachment"
      | none => false) then
    true
  else
    let mime := asciiToLower (common.ty.ty ++ "/" ++ common.ty.subtype)
    -- Skip text/* and multipart/* — never attachments on their own
    if strStartsWith mime "text/" || strStartsWith mime "multipart/" then
      -- Recurse into message/rfc822 body
      match bodyResult with
      | some r => r
      | none => false
    else
      let is_inline := match common.disposition with
        | some d => eqIgnoreAsciiCase d.ty "inline"
        | none => false
      if is_inline then
        -- Inline part with a Content-ID → embedded image (cid: reference)
        if other.id.isSome then
          false
        -- Inline image with a filename but no Content-ID → real attachment
        else if (match common.disposition with
                 | some d =>
                   match d.params with
                   | some ps => ps.any (fun kv => eqIgnoreAsciiCase kv.1 "filename")
                   | none => false
                 | none => false) then
          true
        -- Inline with no Content-ID and no filename → tracking pixel, skip
        else
          false
      else
        -- No disposition at all → non-text part without disposition is an attachment
        true

mutual

/-- Model of `has_attachments_from_bodystructure` (imap/mod.rs): walk an IMAP
BODYSTRUCTURE tree to detect real attachments. -/
def has_attachments_from_bodystructure : BodyStructure → Bool
  | .basic common other => hasAttachLeaf common other none
  | .text common other => hasAttachLeaf common other none
  | .message common other body =>
      hasAttachLeaf common other (some (has_attachments_from_bodystructure body))
  | .multipart bodies => anyHasAttachments bodies

/-- The `bodies.iter().any(has_attachments_from_bodystructure)` loop of the
multipart arm, written as explicit recursion over the sub-part list. -/
def anyHasAttachments : List BodyStructure → Bool
  | [] => false
  | b :: rest => has_attachments_from_bodystructure b || anyHasAttachments rest

end

/- ── Post-fetch classifier (main.rs is_real_attachment) ──────────────────── -/

/-- The cid-reference test inside `is_real_attachment`: the part carries a
Content-ID and the extracted HTML body contains `cid:` followed by the
Content-ID stripped of surrounding angle brackets. -/
def cid_referenced_in_html (content_id : Option String) (html : Option String) : Bool :=
  match content_id, html with
  | some cid, some html_body =>
      strContains html_body ("cid:" ++ trim_angle_brackets cid)
  | _, _ => false

/-- Model of `is_real_attachment` (main.rs): decide whether a collected
attachment part is a "real" attachment (not an inline embedded image or
tracking pixel). -/
def is_real_attachment (content_type : String) (content_id : Option String)
    (filename : Option String) (size : Nat) (html : Option String) : Bool :=
  let ct := asciiToLower content_type
  -- Non-image types are always real attachments
  if ¬ (strStartsWith ct "image/") then
    true
  -- Inline image with Content-ID referenced in the HTML body → embedded, not real
  else if cid_referenced_in_html content_id html then
    false
  -- Tiny unnamed image → tracking pixel
  else if filename.isNone && size < 5000 then
    false
  else
    true

/- ── Email data model (imap/mod.rs structs and FETCH responses) ──────────── -/

structure EmailAddress where
  name : Option String
  address : String
deriving Repr, DecidableEq

/-- Rust `EmailAddress::default()`. -/
def defaultEmailAddress : EmailAddress := { name := none, address := "" }

structure EmailHeader where
  uid : Nat
  seq : Nat
  display_index : Option Nat
  message_id : Option String
  subject : String
  «from» : EmailAddress
  «to» : List EmailAddress
  cc : List EmailAddress
  bcc : List EmailAddress
  date : Option String
  internal_date : Option String
  flags : List String
  size : Option Nat
  has_attachments : Bool
  source : Option String
deriving Repr, DecidableEq

/-- One IMAP ENVELOPE address (imap_proto::types::Address); the rfc2047
decoding of the display name is performed by an external library and is
elided (names arrive already decoded). -/
structure ImapAddress where
  name : Option String
  mailbox : Option String
  host : Option String
deriving Repr, DecidableEq

structure Envelope where
  subject : Option String
  message_id : Option String
  date : Option String
  «from» : Option (List ImapAddress)
  «to» : Option (List ImapAddress)
  cc : Option (List ImapAddress)
  bcc : Option (List ImapAddress)
deriving Repr, DecidableEq

/-- One FETCH response item, with the attributes `parse_header_from_fetch`
consults.  Flags arrive already stringified (`extract_flags` output) and the
internal date already rendered to RFC 3339 by the protocol library. -/
structure Fetch where
  uid : Option Nat
  message : Nat
  envelope : Option Envelope
  flags : List String
  internal_date : Option String
  size : Option Nat
  bodystructure : Option BodyStructure
deriving Repr

/-- Model of `imap_addr_to_email_address` (imap/mod.rs). -/
def imap_addr_to_email_address (addr : ImapAddress) : EmailAddress :=
  let mailbox := addr.mailbox.getD ""
  let host := addr.host.getD ""
  let address := if host = "" then mailbox else mailbox ++ "@" ++ host
  { name := addr.name, address := address }

/-- Model of `parse_header_from_fetch` (imap/mod.rs): fails when the FETCH
item carries no UID or no ENVELOPE, otherwise projects the header. -/
def parse_header_from_fetch (fetch : Fetch) : Except String EmailHeader :=
  match fetch.uid with
  | none => .error "No UID in FETCH"
  | some uid =>
    match fetch.envelope with
    | none => .error "No ENVELOPE in FETCH"
    | some envelope =>
      .ok {
        uid := uid
        seq := fetch.message
        display_index := none
        message_id := envelope.message_id
        subject := envelope.subject.getD "(No Subject)"
        «from» := ((envelope.«from».bind List.head?).map imap_addr_to_email_address).getD
          defaultEmailAddress
        «to» := (envelope.«to».map (List.map imap_addr_to_email_address)).getD []
        cc := (envelope.cc.map (List.map imap_addr_to_email_address)).getD []
        bcc := (envelope.bcc.map (List.map imap_addr_to_email_address)).getD []
        date := envelope.date
        internal_date := fetch.internal_date
        flags := fetch.flags
        size := fetch.size
        has_attachments :=
          (fetch.bodystructure.map has_attachments_from_bodystructure).getD false
        source := none }

/-- `(parse_header_from_fetch f).ok`, as collected by the success arm of the
per-fetch loops. -/
def parsedHeader (f : Fetch) : Option EmailHeader :=
  (parse_header_from_fetch f).toOption

/-- The skipped-UID report produced by the failure arm of the per-fetch
loops: the raw (optional) UID of a fetch whose header failed to parse. -/
def skippedUid (f : Fetch) : Option (Option Nat) :=
  match parse_header_from_fetch f with
  | .ok _ => none
  | .error _ => some f.uid

/-- The accumulation loop shared by `fetch_emails_page` (parsed headers in
order, failed items' UIDs in order). -/
def splitParsed (fetches : List Fetch) : List EmailHeader × List (Option Nat) :=
  fetches.foldl
    (fun acc f =>
      match parse_header_from_fetch f with
      | .ok header => (acc.1 ++ [header], acc.2)
      | .error _ => (acc.1, acc.2 ++ [f.uid]))
    ([], [])

/- ── Pagination (imap/mod.rs fetch_emails_page / fetch_emails_range) ─────── -/

/-- Model of `fetch_emails_page` (imap/mod.rs).  `total` is the message count
reported by SELECT (`mbox.exists`, a u32); `server start stop` is the list of
FETCH response items the server returns for the sequence range
`start:stop`.  The u32 products `page * limit` and `(page - 1) * limit` wrap
modulo 2^32 before being cast to i64, exactly as in the source. -/
def fetch_emails_page (total page limit : Nat)
    (server : Nat → Nat → List Fetch) :
    List EmailHeader × Nat × Bool × List (Option Nat) :=
  if total = 0 then
    ([], 0, false, [])
  else
    let start := i64_as_u32 (max 1 ((total : Int) - (u32_mul page limit : Nat) + 1))
    let stop := i64_as_u32 (max 1 ((total : Int) - (u32_mul (u32_sub page 1) limit : Nat)))
    -- Page is beyond total — return empty result
    if stop < start then
      ([], total, false, [])
    else
      let parts := splitParsed (server start stop)
      (parts.1.reverse, total, decide (1 < start), parts.2)

/-- Ordering used by `emails.sort_by_key(|e| e.display_index)` — the Rust
`Option<u32>` order (`None` below every `Some`). -/
def optNatLe (a b : Option Nat) : Bool :=
  match a, b with
  | none, _ => true
  | some _, none => false
  | some x, some y => x ≤ y

/-- Model of `fetch_emails_range` (imap/mod.rs): display-index range fetch
for virtualized scrolling.  The `total - 1` clamp is u32 subtraction. -/
def fetch_emails_range (total start_index end_index : Nat)
    (server : Nat → Nat → List Fetch) :
    List EmailHeader × Nat × List (Option Nat) :=
  if total = 0 then
    ([], 0, [])
  else
    let clamped_start := min start_index (u32_sub total 1)
    let clamped_end := min end_index total
    if clamped_end ≤ clamped_start then
      ([], total, [])
    else
      let imap_start := max (total - clamped_end + 1) 1
      let imap_end := total - clamped_start
      let parts := (server imap_start imap_end).foldl
        (fun acc f =>
          match parse_header_from_fetch f with
          | .ok header =>
              (acc.1 ++ [{ header with display_index := some (u32_sub total header.seq) }],
               acc.2)
          | .error _ => (acc.1, acc.2 ++ [f.uid]))
        ([], [])
      (parts.1.mergeSort (fun a b => optNatLe a.display_index b.display_index),
       total, parts.2)

/- ── Search (imap/mod.rs search_emails) ──────────────────────────────────── -/

/-- Numeric value of a digit run. -/
def digitsToNat (ds : List Char) : Nat :=
  ds.foldl (fun acc c => 10 * acc + (c.toNat - '0'.toNat)) 0

def isLeapYear (y : Int) : Bool :=
  y.emod 4 == 0 && (y.emod 100 != 0 || y.emod 400 == 0)

def daysInMonth (y : Int) (m : Nat) : Nat :=
  if m = 2 then (if isLeapYear y then 29 else 28)
  else if m = 4 || m = 6 || m = 9 || m = 11 then 30
  else 31

/-- Model of `chrono::NaiveDate::parse_from_str(s, "%Y-%m-%d")`: an optionally
negative year, a month and a calendar-valid day separated by `-`, consuming
the whole string; anything else fails. -/
def date_parse_ymd (s : String) : Option (Int × Nat × Nat) :=
  let cs := s.toList
  let (neg, cs) := match cs with
    | '-' :: rest => (true, rest)
    | other => (false, other)
  let (ydigits, cs) := cs.span Char.isDigit
  if ydigits.isEmpty then none
  else
    let y : Int := (if neg then -1 else 1) * (digitsToNat ydigits : Int)
    match cs with
    | '-' :: cs =>
      let (mdigits, cs) := cs.span Char.isDigit
      if mdigits.isEmpty || 2 < mdigits.length then none
      else
        let m := digitsToNat mdigits
        match cs with
        | '-' :: cs =>
          let (ddigits, cs) := cs.span Char.isDigit
          if ddigits.isEmpty || 2 < ddigits.length then none
          else
            let d := digitsToNat ddigits
            if cs.isEmpty && 1 ≤ m && m ≤ 12 && 1 ≤ d && d ≤ daysInMonth y m then
              some (y, m, d)
            else none
        | _ => none
    | _ => none

def pad2 (n : Nat) : String :=
  if n < 10 then "0" ++ toString n else toString n

def pad4 (n : Nat) : String :=
  if n < 10 then "000" ++ toString n
  else if n < 100 then "00" ++ toString n
  else if n < 1000 then "0" ++ toString n
  else toString n

def monthAbbrev (m : Nat) : String :=
  match m with
  | 1 => "Jan" | 2 => "Feb" | 3 => "Mar" | 4 => "Apr"
  | 5 => "May" | 6 => "Jun" | 7 => "Jul" | 8 => "Aug"
  | 9 => "Sep" | 10 => "Oct" | 11 => "Nov" | _ => "Dec"

/-- `dt.format("%d-%b-%Y")` — the IMAP date literal of a parsed date. -/
def format_imap_date : Int × Nat × Nat → String
  | (y, m, d) =>
    pad2 d ++ "-" ++ monthAbbrev m ++ "-" ++
      (if y < 0 then "-" ++ pad4 (-y).toNat else pad4 y.toNat)

/-- The conjunctive criteria list built by `search_emails`: free text, from
and subject substrings (each skipped when absent or empty), and since/before
dates (each skipped when absent, empty, or failing the `%Y-%m-%d` parse). -/
def search_criteria (query from_filter subject_filter since before : Option String) :
    List String :=
  (match query with
   | some q => if q ≠ "" then ["TEXT \"" ++ q.replace "\"" "\\\"" ++ "\""] else []
   | none => []) ++
  (match from_filter with
   | some f => if f ≠ "" then ["FROM \"" ++ f.replace "\"" "\\\"" ++ "\""] else []
   | none => []) ++
  (match subject_filter with
   | some s => if s ≠ "" then ["SUBJECT \"" ++ s.replace "\"" "\\\"" ++ "\""] else []
   | none => []) ++
  (match since with
   | some s =>
     if s ≠ "" then
       match date_parse_ymd s with
       | some dt => ["SINCE " ++ format_imap_date dt]
       | none => []
     else []
   | none => []) ++
  (match before with
   | some b =>
     if b ≠ "" then
       match date_parse_ymd b with
       | some dt => ["BEFORE " ++ format_imap_date dt]
       | none => []
     else []
   | none => [])

/-- The sort key of a search result: internal date, falling back to the
header date string. -/
def searchKey (h : EmailHeader) : Option String :=
  h.internal_date.or h.date

def optStrCompare : Option String → Option String → Ordering
  | none, none => .eq
  | none, some _ => .lt
  | some _, none => .gt
  | some a, some b => compare a b

/-- Model of `search_emails` (imap/mod.rs).  `searchOracle` answers the
UID SEARCH exchange for a criteria string; `fetchOracle` answers the UID
FETCH exchange for a comma-joined UID list.  An empty criteria list returns
an empty result without consulting either oracle. -/
def search_emails (query from_filter subject_filter since before : Option String)
    (searchOracle : String → Except String (List Nat))
    (fetchOracle : String → Except String (List Fetch)) :
    Except String (List EmailHeader × Nat) :=
  let criteria_parts := search_criteria query from_filter subject_filter since before
  if criteria_parts.isEmpty then
    .ok ([], 0)
  else
    let search_str := String.intercalate " " criteria_parts
    match searchOracle search_str with
    | .error e => .error ("SEARCH failed: " ++ e)
    | .ok uids =>
      let total_matches := uids.length
      if uids.isEmpty then
        .ok ([], 0)
      else
        -- Limit to last 200
        let limited := if 200 < uids.length then uids.drop (uids.length - 200) else uids
        let uid_range := String.intercalate "," (limited.map toString)
        match fetchOracle uid_range with
        | .error e => .error ("FETCH search results failed: " ++ e)
        | .ok fetches =>
          let emails := fetches.filterMap (fun f =>
            match parse_header_from_fetch f with
            | .ok header => some { header with source := some "server-search" }
            | .error _ => none)
          -- Sort by internal_date (RFC 3339 — sorts lexicographically), fall
          -- back to date header; descending
          .ok (emails.mergeSort
                 (fun a b => optStrCompare (searchKey b) (searchKey a) ≠ Ordering.gt),
               total_matches)

/- ── Local store codec (main.rs maildir filename functions) ──────────────── -/

/-- The per-flag letter of `build_maildir_filename` (accepts the full name or
the single-letter shorthand, case-insensitively). -/
def flag_char (f : String) : Option Char :=
  let l := asciiToLower f
  if l == "archived" || l == "a" then some 'A'
  else if l == "draft" || l == "d" then some 'D'
  else if l == "flagged" || l == "f" then some 'F'
  else if l == "replied" || l == "r" then some 'R'
  else if l == "seen" || l == "s" then some 'S'
  else if l == "trashed" || l == "t" then some 'T'
  else none

/-- Stable insertion into a sorted character list. -/
def insertSorted (c : Char) : List Char → List Char
  | [] => [c]
  | x :: t => if c ≤ x then c :: x :: t else x :: insertSorted c t

/-- Model of `Vec::sort` on the flag letters (a stable sort, written as
insertion sort so that it evaluates in the kernel). -/
def sortChars (l : List Char) : List Char :=
  l.foldr insertSorted []

/-- Model of `Vec::dedup`: remove consecutive duplicates. -/
def dedupConsec : List Char → List Char
  | [] => []
  | [a] => [a]
  | a :: b :: t => if a = b then dedupConsec (b :: t) else a :: dedupConsec (b :: t)

/-- Model of `build_maildir_filename` (main.rs). -/
def build_maildir_filename (uid : Nat) (flags : List String) : String :=
  let flag_chars := flags.filterMap flag_char
  let deduped := dedupConsec (sortChars flag_chars)
  toString uid ++ ":2," ++ String.mk deduped

/-- The letter-to-flag-name decoding loop of `parse_flags_from_filename`. -/
def charFlag (c : Char) : Option String :=
  match c with
  | 'A' => some "archived"
  | 'D' => some "draft"
  | 'F' => some "flagged"
  | 'R' => some "replied"
  | 'S' => some "seen"
  | 'T' => some "trashed"
  | _ => none

/-- First occurrence of `needle` in a character list: `some (pre, post)` with
the characters before the occurrence and the characters after it. -/
def findSub (needle : List Char) : List Char → Option (List Char × List Char)
  | [] => none
  | c :: t =>
    if needle.isPrefixOf (c :: t) then some ([], (c :: t).drop needle.length)
    else
      match findSub needle t with
      | some (pre, post) => some (c :: pre, post)
      | none => none

/-- Model of Rust `s.split(needle).nth(1)` for a non-empty needle: the
segment between the first occurrence and the second occurrence (or the end
of the string). -/
def split_nth1 (needle l : List Char) : Option (List Char) :=
  match findSub needle l with
  | none => none
  | some (_, post) =>
    match findSub needle post with
    | none => some post
    | some (pre2, _) => some pre2

/-- Model of `parse_flags_from_filename` (main.rs). -/
def parse_flags_from_filename (filename : String) : List String :=
  match split_nth1 (":2,".toList) filename.toList with
  | some flags_part => flags_part.filterMap charFlag
  | none => []

/- ── Local store directory model (main.rs / archive.rs file effects) ─────── -/

/-- Raw message bytes (the base64 transport encoding between the fetch layer
and the store is external and bijective, so the model passes bytes). -/
abbrev Bytes := List Nat

/-- A maildir `cur` directory: filenames with contents, in directory order. -/
abbrev Dir := List (String × Bytes)

/-- Contents of the first entry with the given name. -/
def dirLookup : Dir → String → Option Bytes
  | [], _ => none
  | e :: t, name => if e.1 = name then some e.2 else dirLookup t name

/-- Effect of `fs::remove_file` on the directory listing (names are unique
in a real directory; the model drops every entry with the name). -/
def dirRemove : Dir → String → Dir
  | [], _ => []
  | e :: t, name => if e.1 = name then dirRemove t name else e :: dirRemove t name

/-- Effect of `fs::write` (create or truncate). -/
def dirWrite (dir : Dir) (name : String) (content : Bytes) : Dir :=
  dirRemove dir name ++ [(name, content)]

/-- Model of `find_file_by_uid` (main.rs): the first directory entry whose
name starts with `<uid>:`. -/
def find_file_by_uid (dir : Dir) (uid : Nat) : Option String :=
  (dir.find? (fun e => strStartsWith e.1 (toString uid ++ ":"))).map (fun e => e.1)

/-- Model of `maildir_store_raw` (main.rs): skip the write when a file for
the UID already exists. -/
def maildir_store_raw (dir : Dir) (uid : Nat) (raw : Bytes) (flags : List String) : Dir :=
  -- Skip if already cached on disk
  if (find_file_by_uid dir uid).isSome then dir
  else dirWrite dir (build_maildir_filename uid flags) raw

/- ── Connection pool and pooled wrappers (pool.rs / commands.rs) ─────────── -/

/-- One of the two keyed session stores; sessions are identified by numeric
ids, keys are the `email-host` strings of `conn_key`. -/
abbrev Pool := List (String × Nat)

/-- Model of `return_to_pool` / `HashMap::insert`: the session is stored
under the key; a previously stored session for the key is displaced (and
logged out by the source, i.e. dropped). -/
def pool_insert (pool : Pool) (key : String) (s : Nat) : Pool × Option Nat :=
  (pool.filter (fun e => !(e.1 == key)) ++ [(key, s)],
   (pool.find? (fun e => e.1 == key)).map (fun e => e.2))

def sessionInPool (pool : Pool) (s : Nat) : Bool :=
  pool.any (fun e => e.2 == s)

/-- Model of `with_background` (commands.rs), entered after acquisition:
`bg_pool` is the background store with the borrowed session `s` already
removed, and `f` is the protocol operation, returning the threaded session
on success. -/
def with_background_model {T : Type} (bg_pool : Pool) (key : String) (s : Nat)
    (f : Nat → Except String (T × Nat)) : Except String T × Pool :=
  match f s with
  | .ok (result, session) => (.ok result, (pool_insert bg_pool key session).1)
  | .error e => (.error e, bg_pool)

/-- Model of `with_priority` (commands.rs); identical control flow against
the priority store. -/
def with_priority_model {T : Type} (pr_pool : Pool) (key : String) (s : Nat)
    (f : Nat → Except String (T × Nat)) : Except String T × Pool :=
  match f s with
  | .ok (result, session) => (.ok result, (pool_insert pr_pool key session).1)
  | .error e => (.error e, pr_pool)

/-- A fetched full message, reduced to the raw source bytes the archive task
persists. -/
structure FetchedEmail where
  raw_source : Bytes
deriving Repr, DecidableEq

/-- Model of `fetch_and_store` (archive.rs), entered after the priority
session `acquired` was taken from the store `pr_pool`.  `fetchResult` is the
outcome of `fetch_email_by_uid`.  Returns the task result, the new priority
store and the new directory. -/
def fetch_and_store (pr_pool : Pool) (key : String) (acquired : Nat)
    (fetchResult : Except String (Option FetchedEmail)) (dir : Dir) (uid : Nat) :
    Except String Unit × Pool × Dir :=
  match fetchResult with
  | .error e =>
    -- Don't return session on error — it may be broken
    (.error ("IMAP fetch failed: " ++ e), pr_pool, dir)
  | .ok emailOpt =>
    let pool' := (pool_insert pr_pool key acquired).1
    match emailOpt with
    | none => (.error ("Email UID " ++ toString uid ++ " not found"), pool', dir)
    | some email =>
      let dir1 := match find_file_by_uid dir uid with
        | some existing => dirRemove dir existing
        | none => dir
      let filename := build_maildir_filename uid ["archived", "seen"]
      (.ok (), pool', dirWrite dir1 filename email.raw_source)

/- ── Concrete FETCH data used by closed instances ────────────────────────── -/

/-- An empty (but well-formed) envelope. -/
def emptyEnvelope : Envelope :=
  { subject := none, message_id := none, date := none,
    «from» := none, «to» := none, cc := none, bcc := none }

/-- A parseable FETCH item for sequence number `i` (UID equal to the
sequence number, empty envelope). -/
def mkFetch (i : Nat) : Fetch :=
  { uid := some i, message := i, envelope := some emptyEnvelope,
    flags := [], internal_date := none, size := none, bodystructure := none }

/-- A well-behaved server: FETCH `s:e` returns one parseable item per
sequence number of the range, in ascending order. -/
def seqServer : Nat → Nat → List Fetch :=
  fun s e => (List.range (e + 1 - s)).map (fun i => mkFetch (s + i))

/-- A FETCH item with no ENVELOPE: its header fails to parse. -/
def badFetch : Fetch :=
  { uid := some 999, message := 999, envelope := none,
    flags := [], internal_date := none, size := none, bodystructure := none }

/-- A server that appends one unparseable item to every response. -/
def mixedServer : Nat → Nat → List Fetch :=
  fun s e => seqServer s e ++ [badFetch]

/- ═══════════════════════ THEOREMS ═══════════════════════ -/

lemma asciiToLower_attachment : asciiToLower "attachment" = "attachment" := by decide

lemma asciiToLower_inline : asciiToLower "inline" = "inline" := by decide

lemma asciiToLower_filename : asciiToLower "filename" = "filename" := by decide

/-- Claim C3: `is_real_attachment` marks a collected part as NOT real iff
its content type starts with `image/` and either its content-id occurs as a
`cid:` reference in the extracted HTML body, or it is unnamed and strictly
smaller than 5000 bytes.  Consequently every non-image part is real, and an
unnamed image of exactly 5000 bytes (no cid reference) is real. -/
theorem is_real_attachment_not_real_iff :
    (∀ ct cid fn size html,
      is_real_attachment ct cid fn size html = false ↔
        (strStartsWith (asciiToLower ct) "image/" = true ∧
          (cid_referenced_in_html cid html = true ∨ (fn = none ∧ size < 5000)))) ∧
    (∀ ct cid fn size html, strStartsWith (asciiToLower ct) "image/" = false →
      is_real_attachment ct cid fn size html = true) ∧
    (∀ ct cid html, cid_referenced_in_html cid html = false →
      is_real_attachment ct cid none 5000 html = true) := by
  refine ⟨?_, ?_, ?_⟩
  · intro ct cid fn size html
    rcases Bool.eq_false_or_eq_true (strStartsWith (asciiToLower ct) "image/") with h1 | h1 <;>
      rcases Bool.eq_false_or_eq_true (cid_referenced_in_html cid html) with h2 | h2 <;>
      cases fn <;>
      rcases Nat.lt_or_ge size 5000 with h3 | h3 <;>
      simp_all [is_real_attachment, Nat.not_lt]
  · intro ct cid fn size html h1
    simp [is_real_attachment, h1]
  · intro ct cid html h2
    rcases Bool.eq_false_or_eq_true (strStartsWith (asciiToLower ct) "image/") with h1 | h1 <;>
      simp [is_real_attachment, h1, h2]

/-- Closed instance of `is_real_attachment_not_real_iff`: a non-image part
with a content-id and tiny size is real, and an unnamed cid-free image of
exactly 5000 bytes is real. -/
theorem is_real_attachment_not_real_iff_witness :
    is_real_attachment "application/pdf" (some "<x>") none 1 (some "a cid:x b") = true ∧
    is_real_attachment "image/png" none none 5000 none = true :=
  ⟨is_real_attachment_not_real_iff.2.1 "application/pdf" (some "<x>") none 1
     (some "a cid:x b") (by decide),
   is_real_attachment_not_real_iff.2.2 "image/png" none none (by decide)⟩

/-- Claim C4, counterexample: an unnamed 10-byte image whose content-id is
NOT referenced in the HTML body is still classified as not real (the
tracking-pixel rule fires after the cid check), contradicting the claim that
every image with an unreferenced content-id counts as a real attachment. -/
theorem is_real_attachment_unreferenced_cid_counterexample :
    cid_referenced_in_html (some "<pixel>") (some "<p>hello</p>") = false ∧
    is_real_attachment "image/png" (some "<pixel>") none 10 (some "<p>hello</p>") = false := by
  decide

/-- Claim C4, amended: an image part carrying a content-id that is not
referenced in the HTML body is classified as a real attachment provided it
has a filename or its size is at least 5000 bytes; an unnamed such image
under 5000 bytes is still demoted by the tracking-pixel rule. -/
theorem is_real_attachment_unreferenced_cid :
    ∀ ct cid fn size html,
      strStartsWith (asciiToLower ct) "image/" = true →
      cid_referenced_in_html (some cid) html = false →
      (fn ≠ none ∨ 5000 ≤ size) →
      is_real_attachment ct (some cid) fn size html = true := by
  intro ct cid fn size html himg href hbig
  rcases hbig with hfn | hsz
  · cases fn with
    | none => exact absurd rfl hfn
    | some name => simp [is_real_attachment, himg, href]
  · simp [is_real_attachment, himg, href, Nat.not_lt.mpr hsz]

/-- Closed instance of `is_real_attachment_unreferenced_cid`: a named image
with an unreferenced content-id is real. -/
theorem is_real_attachment_unreferenced_cid_witness :
    is_real_attachment "image/png" (some "<logo>") (some "logo.png") 10 (some "") = true :=
  is_real_attachment_unreferenced_cid "image/png" "<logo>" (some "logo.png") 10 (some "")
    (by decide) (by decide) (Or.inl (by simp))

/-- Claim C5, counterexample: a non-text, non-multipart part with inline
disposition carrying BOTH a content-id and an explicit filename parameter is
NOT reported as an attachment — the content-id check precedes the filename
check in `has_attachments_from_bodystructure`, contradicting the claimed
promotion to a real attachment. -/
theorem bodystructure_inline_cid_filename_counterexample :
    has_attachments_from_bodystructure
      (.basic
        { ty := { ty := "image", subtype := "png" },
          disposition := some { ty := "inline",
                                params := some [("filename", "photo.png")] } }
        { id := some "<cid1>" }) = false := by
  decide

/-- Claim C5, amended: in the pre-fetch heuristic, every non-text,
non-multipart part with inline disposition that carries a content-id is
treated as an embedded reference (NOT an attachment) even when it also
carries an explicit filename parameter; the filename promotion applies only
to inline parts without a content-id. -/
theorem bodystructure_inline_cid_beats_filename :
    ∀ (common : BodyCommon) (other : BodyOther) (d : ContentDispositionData),
      common.disposition = some d →
      eqIgnoreAsciiCase d.ty "inline" = true →
      strStartsWith (asciiToLower (common.ty.ty ++ "/" ++ common.ty.subtype)) "text/" = false →
      strStartsWith (asciiToLower (common.ty.ty ++ "/" ++ common.ty.subtype)) "multipart/" = false →
      (other.id.isSome = true →
        has_attachments_from_bodystructure (.basic common other) = false) ∧
      (other.id = none →
        (∃ ps, d.params = some ps ∧
          ps.any (fun kv => eqIgnoreAsciiCase kv.1 "filename") = true) →
        has_attachments_from_bodystructure (.basic common other) = true) := by
  intro common other d hd hinl htext hmulti
  have hty : asciiToLower d.ty = "inline" := by
    have h := hinl
    simp only [eqIgnoreAsciiCase, asciiToLower_inline] at h
    exact eq_of_beq h
  have hatt : eqIgnoreAsciiCase d.ty "attachment" = false := by
    simp [eqIgnoreAsciiCase, hty, asciiToLower_attachment]
  constructor
  · intro hid
    simp [has_attachments_from_bodystructure, hasAttachLeaf, hd, hatt, htext, hmulti,
      eqIgnoreAsciiCase, hty, hid, asciiToLower_inline, asciiToLower_attachment]
  · intro hid hex
    rcases hex with ⟨ps, hps, hany⟩
    rcases List.any_eq_true.mp hany with ⟨kv, hmem, hkv⟩
    have hkv2 : asciiToLower kv.1 = "filename" := by
      have h := hkv
      simp only [eqIgnoreAsciiCase, asciiToLower_filename] at h
      exact eq_of_beq h
    simp [has_attachments_from_bodystructure, hasAttachLeaf, hd, hatt, htext, hmulti,
      eqIgnoreAsciiCase, hty, hid, hps, asciiToLower_inline, asciiToLower_filename]
    exact Or.inr ⟨kv.1, ⟨kv.2, hmem⟩, hkv2⟩

/-- Closed instance of `bodystructure_inline_cid_beats_filename`: with a
content-id the inline image (even named) is no attachment; without one, the
filename promotes it. -/
theorem bodystructure_inline_cid_beats_filename_witness :
    has_attachments_from_bodystructure
      (.basic
        { ty := { ty := "image", subtype := "png" },
          disposition := some { ty := "inline",
                                params := some [("filename", "x.png")] } }
        { id := some "<abc>" }) = false ∧
    has_attachments_from_bodystructure
      (.basic
        { ty := { ty := "image", subtype := "png" },
          disposition := some { ty := "inline",
                                params := some [("filename", "x.png")] } }
        { id := none }) = true :=
  ⟨(bodystructure_inline_cid_beats_filename
      { ty := { ty := "image", subtype := "png" },
        disposition := some { ty := "inline", params := some [("filename", "x.png")] } }
      { id := some "<abc>" }
      { ty := "inline", params := some [("filename", "x.png")] }
      rfl (by decide) (by decide) (by decide)).1 (by decide),
   (bodystructure_inline_cid_beats_filename
      { ty := { ty := "image", subtype := "png" },
        disposition := some { ty := "inline", params := some [("filename", "x.png")] } }
      { id := none }
      { ty := "inline", params := some [("filename", "x.png")] }
      rfl (by decide) (by decide) (by decide)).2 rfl (⟨[("filename", "x.png")], rfl, by decide⟩)⟩

/- ── Helper lemmas for the maildir filename codec ────────────────────────── -/

lemma digitChar_isDigit (n : Nat) (h : n < 10) : (Nat.digitChar n).isDigit = true := by
  interval_cases n <;> decide

lemma toDigitsCore_isDigit :
    ∀ (f n : Nat) (l : List Char), (∀ c ∈ l, c.isDigit = true) →
      ∀ c ∈ Nat.toDigitsCore 10 f n l, c.isDigit = true := by
  intro f
  induction f with
  | zero => intro n l hl c hc; exact hl c hc
  | succ f ih =>
    intro n l hl c hc
    rw [Nat.toDigitsCore] at hc
    by_cases h0 : n / 10 = 0
    · simp only [h0, if_pos rfl] at hc
      rcases List.mem_cons.mp hc with rfl | hmem
      · exact digitChar_isDigit _ (Nat.mod_lt _ (by omega))
      · exact hl c hmem
    · simp only [if_neg h0] at hc
      refine ih (n / 10) _ ?_ c hc
      intro d hd
      rcases List.mem_cons.mp hd with rfl | hmem
      · exact digitChar_isDigit _ (Nat.mod_lt _ (by omega))
      · exact hl d hmem

/-- Every character of the decimal rendering of a Nat is a digit. -/
lemma repr_isDigit (n : Nat) : ∀ c ∈ (toString n).toList, c.isDigit = true := by
  intro c hc
  rw [show toString n = Nat.repr n from rfl, Nat.repr] at hc
  exact toDigitsCore_isDigit _ _ [] (by simp) c hc

lemma repr_no_colon (n : Nat) : ∀ c ∈ (toString n).toList, c ≠ ':' := by
  intro c hc h
  have hd := repr_isDigit n c hc
  subst h
  simp at hd

lemma findSub_none (p' : List Char) :
    ∀ (a : List Char), (∀ c ∈ a, c ≠ ':') → findSub (':' :: p') a = none := by
  intro a
  induction a with
  | nil => intro _; rfl
  | cons c t ih =>
    intro ha
    have hc : c ≠ ':' := ha c (List.mem_cons_self c t)
    have hpre : (':' :: p').isPrefixOf (c :: t) = false := by
      simp [List.isPrefixOf]
      intro h
      exact absurd h.symm hc
    rw [findSub, hpre]
    simp only [Bool.false_eq_true, if_false]
    rw [ih (fun d hd => ha d (List.mem_cons_of_mem c hd))]

lemma findSub_boundary (p' : List Char) :
    ∀ (a b : List Char), (∀ c ∈ a, c ≠ ':') →
      findSub (':' :: p') (a ++ (':' :: p') ++ b) = some (a, b) := by
  intro a
  induction a with
  | nil =>
    intro b _
    have he : ([] : List Char) ++ (':' :: p') ++ b = ':' :: (p' ++ b) := by simp
    rw [he, findSub]
    have hpre : (':' :: p').isPrefixOf (':' :: (p' ++ b)) = true := by
      have he2 : ':' :: (p' ++ b) = (':' :: p') ++ b := rfl
      rw [he2]
      exact List.isPrefixOf_iff_prefix.mpr (List.prefix_append _ _)
    rw [hpre]
    simp only [if_true]
    have he3 : (':' :: (p' ++ b)) = (':' :: p') ++ b := rfl
    rw [he3, List.drop_left]
  | cons c t ih =>
    intro b ha
    have hc : c ≠ ':' := ha c (List.mem_cons_self c t)
    have hpre : (':' :: p').isPrefixOf (c :: (t ++ (':' :: p') ++ b)) = false := by
      simp [List.isPrefixOf]
      intro h
      exact absurd h.symm hc
    rw [List.cons_append, List.cons_append, findSub, hpre]
    simp only [Bool.false_eq_true, if_false]
    rw [ih b (fun d hd => ha d (List.mem_cons_of_mem c hd))]

lemma split_nth1_boundary (p' : List Char) (a b : List Char)
    (ha : ∀ c ∈ a, c ≠ ':') (hb : ∀ c ∈ b, c ≠ ':') :
    split_nth1 (':' :: p') (a ++ (':' :: p') ++ b) = some b := by
  unfold split_nth1
  rw [findSub_boundary p' a b ha]
  simp [findSub_none p' b hb]

lemma mem_dedupConsec : ∀ (l : List Char) (c : Char), c ∈ dedupConsec l ↔ c ∈ l := by
  intro l c
  induction l with
  | nil => simp [dedupConsec]
  | cons a t ih =>
    cases t with
    | nil => simp [dedupConsec]
    | cons b t2 =>
      by_cases hab : a = b
      · subst hab
        have hd : dedupConsec (a :: a :: t2) = dedupConsec (a :: t2) := by
          simp [dedupConsec]
        rw [hd, ih]
        simp
      · simp only [dedupConsec, if_neg hab]
        simp [ih, List.mem_cons]

lemma dedupConsec_pairwise_lt :
    ∀ (l : List Char), l.Pairwise (· ≤ ·) → (dedupConsec l).Pairwise (· < ·) := by
  intro l
  induction l with
  | nil => intro _; simp [dedupConsec]
  | cons a t ih =>
    cases t with
    | nil => intro _; simp [dedupConsec]
    | cons b t2 =>
      intro hpw
      have hpw_tail : (b :: t2).Pairwise (fun x y => x ≤ y) := hpw.of_cons
      by_cases hab : a = b
      · simp only [dedupConsec, if_pos hab]
        exact ih hpw_tail
      · simp only [dedupConsec, if_neg hab]
        refine List.pairwise_cons.mpr ⟨?_, ih hpw_tail⟩
        intro x hx
        have hxmem : x ∈ b :: t2 := (mem_dedupConsec _ x).mp hx
        have hab' : a < b :=
          lt_of_le_of_ne ((List.pairwise_cons.mp hpw).1 b (List.mem_cons_self b t2)) hab
        rcases List.mem_cons.mp hxmem with rfl | hxt2
        · exact hab'
        · exact lt_of_lt_of_le hab' ((List.pairwise_cons.mp hpw_tail).1 x hxt2)

lemma mem_insertSorted :
    ∀ (l : List Char) (c d : Char), d ∈ insertSorted c l ↔ d = c ∨ d ∈ l := by
  intro l c d
  induction l with
  | nil => simp [insertSorted]
  | cons x t ih =>
    by_cases h : c ≤ x
    · simp [insertSorted, h]
    · simp [insertSorted, h, ih]
      tauto

lemma insertSorted_pairwise :
    ∀ (l : List Char) (c : Char), l.Pairwise (· ≤ ·) →
      (insertSorted c l).Pairwise (· ≤ ·) := by
  intro l c
  induction l with
  | nil => intro _; simp [insertSorted]
  | cons x t ih =>
    intro h
    by_cases hc : c ≤ x
    · simp only [insertSorted, if_pos hc]
      refine List.pairwise_cons.mpr ⟨?_, h⟩
      intro y hy
      rcases List.mem_cons.mp hy with rfl | hyt
      · exact hc
      · exact le_trans hc ((List.pairwise_cons.mp h).1 y hyt)
    · simp only [insertSorted, if_neg hc]
      refine List.pairwise_cons.mpr ⟨?_, ih h.of_cons⟩
      intro y hy
      rcases (mem_insertSorted t c y).mp hy with rfl | hyt
      · exact le_of_not_le hc
      · exact (List.pairwise_cons.mp h).1 y hyt

lemma mem_sortChars (l : List Char) (c : Char) : c ∈ sortChars l ↔ c ∈ l := by
  induction l with
  | nil => simp [sortChars]
  | cons x t ih =>
    have hs : sortChars (x :: t) = insertSorted x (sortChars t) := rfl
    rw [hs, mem_insertSorted]
    simp [ih]

lemma sortChars_pairwise_le (l : List Char) : (sortChars l).Pairwise (· ≤ ·) := by
  induction l with
  | nil => simp [sortChars]
  | cons x t ih => exact insertSorted_pairwise (sortChars t) x ih

lemma flag_char_mem_letters :
    ∀ (s : String) (c : Char), flag_char s = some c → c ∈ ['A', 'D', 'F', 'R', 'S', 'T'] := by
  intro s c h
  simp only [flag_char] at h
  split_ifs at h <;> simp_all <;> subst h <;> decide

/-- The six maildir flag names with their letters, both directions. -/
lemma six_flag_pairs :
    (flag_char "archived" = some 'A' ∧ charFlag 'A' = some "archived") ∧
    (flag_char "draft" = some 'D' ∧ charFlag 'D' = some "draft") ∧
    (flag_char "flagged" = some 'F' ∧ charFlag 'F' = some "flagged") ∧
    (flag_char "replied" = some 'R' ∧ charFlag 'R' = some "replied") ∧
    (flag_char "seen" = some 'S' ∧ charFlag 'S' = some "seen") ∧
    (flag_char "trashed" = some 'T' ∧ charFlag 'T' = some "trashed") := by
  decide

/-- Claim C6: for every uid and list of flag names drawn from
{archived, draft, flagged, replied, seen, trashed}, `build_maildir_filename`
yields `<uid>:2,` followed by the corresponding letters from {A,D,F,R,S,T}
sorted and deduplicated (strictly increasing), and `parse_flags_from_filename`
applied to that filename returns exactly the set of the given flag names. -/
theorem maildir_filename_roundtrip :
    ∀ (uid : Nat) (flags : List String),
      (∀ f ∈ flags, f ∈ ["archived", "draft", "flagged", "replied", "seen", "trashed"]) →
      build_maildir_filename uid flags =
        toString uid ++ ":2," ++
          String.mk (dedupConsec (sortChars (flags.filterMap flag_char))) ∧
      (dedupConsec (sortChars (flags.filterMap flag_char))).Pairwise (· < ·) ∧
      (∀ c ∈ dedupConsec (sortChars (flags.filterMap flag_char)),
        c ∈ ['A', 'D', 'F', 'R', 'S', 'T']) ∧
      (∀ f, f ∈ parse_flags_from_filename (build_maildir_filename uid flags) ↔ f ∈ flags) := by
  intro uid flags hflags
  have hmemL : ∀ c ∈ flags.filterMap flag_char, c ∈ ['A', 'D', 'F', 'R', 'S', 'T'] := by
    intro c hc
    rcases List.mem_filterMap.mp hc with ⟨g, _, hg⟩
    exact flag_char_mem_letters g c hg
  have hdmem : ∀ c ∈ dedupConsec (sortChars (flags.filterMap flag_char)),
      c ∈ ['A', 'D', 'F', 'R', 'S', 'T'] := by
    intro c hc
    exact hmemL c ((mem_sortChars _ c).mp ((mem_dedupConsec _ c).mp hc))
  have hnocolon : ∀ c ∈ dedupConsec (sortChars (flags.filterMap flag_char)), c ≠ ':' := by
    intro c hc
    have := hdmem c hc
    simp at this
    rcases this with rfl | rfl | rfl | rfl | rfl | rfl <;> decide
  have hsplit : split_nth1 (":2,".toList) (build_maildir_filename uid flags).toList =
      some (dedupConsec (sortChars (flags.filterMap flag_char))) :=
    split_nth1_boundary ['2', ','] (toString uid).toList
      (dedupConsec (sortChars (flags.filterMap flag_char)))
      (repr_no_colon uid) hnocolon
  have hparse : parse_flags_from_filename (build_maildir_filename uid flags) =
      (dedupConsec (sortChars (flags.filterMap flag_char))).filterMap charFlag := by
    unfold parse_flags_from_filename
    rw [hsplit]
  refine ⟨rfl, dedupConsec_pairwise_lt _ (sortChars_pairwise_le _), hdmem, ?_⟩
  intro f
  rw [hparse]
  constructor
  · intro hf
    rcases List.mem_filterMap.mp hf with ⟨c, hcls, hcf⟩
    rcases List.mem_filterMap.mp ((mem_sortChars _ c).mp ((mem_dedupConsec _ c).mp hcls))
      with ⟨g, hgflags, hgc⟩
    have hsix := hflags g hgflags
    simp only [List.mem_cons, List.mem_singleton] at hsix
    rcases hsix with rfl | rfl | rfl | rfl | rfl | rfl | h0
    · rw [six_flag_pairs.1.1] at hgc
      cases hgc
      rw [six_flag_pairs.1.2] at hcf
      cases hcf
      exact hgflags
    · rw [six_flag_pairs.2.1.1] at hgc
      cases hgc
      rw [six_flag_pairs.2.1.2] at hcf
      cases hcf
      exact hgflags
    · rw [six_flag_pairs.2.2.1.1] at hgc
      cases hgc
      rw [six_flag_pairs.2.2.1.2] at hcf
      cases hcf
      exact hgflags
    · rw [six_flag_pairs.2.2.2.1.1] at hgc
      cases hgc
      rw [six_flag_pairs.2.2.2.1.2] at hcf
      cases hcf
      exact hgflags
    · rw [six_flag_pairs.2.2.2.2.1.1] at hgc
      cases hgc
      rw [six_flag_pairs.2.2.2.2.1.2] at hcf
      cases hcf
      exact hgflags
    · rw [six_flag_pairs.2.2.2.2.2.1] at hgc
      cases hgc
      rw [six_flag_pairs.2.2.2.2.2.2] at hcf
      cases hcf
      exact hgflags
    · simp at h0
  · intro hf
    have hsix := hflags f hf
    simp only [List.mem_cons, List.mem_singleton] at hsix
    have hstep : ∀ (c : Char), flag_char f = some c → charFlag c = some f →
        f ∈ (dedupConsec (sortChars (flags.filterMap flag_char))).filterMap charFlag := by
      intro c hc1 hc2
      refine List.mem_filterMap.mpr ⟨c, ?_, hc2⟩
      exact (mem_dedupConsec _ c).mpr ((mem_sortChars _ c).mpr
        (List.mem_filterMap.mpr ⟨f, hf, hc1⟩))
    rcases hsix with rfl | rfl | rfl | rfl | rfl | rfl | h0
    · exact hstep 'A' six_flag_pairs.1.1 six_flag_pairs.1.2
    · exact hstep 'D' six_flag_pairs.2.1.1 six_flag_pairs.2.1.2
    · exact hstep 'F' six_flag_pairs.2.2.1.1 six_flag_pairs.2.2.1.2
    · exact hstep 'R' six_flag_pairs.2.2.2.1.1 six_flag_pairs.2.2.2.1.2
    · exact hstep 'S' six_flag_pairs.2.2.2.2.1.1 six_flag_pairs.2.2.2.2.1.2
    · exact hstep 'T' six_flag_pairs.2.2.2.2.2.1 six_flag_pairs.2.2.2.2.2.2
    · simp at h0


/-- Closed instance of `maildir_filename_roundtrip`: flags {archived, seen}
produce the flag suffix exactly `AS` and decode back to the same set. -/
theorem maildir_filename_roundtrip_witness :
    build_maildir_filename 42 ["archived", "seen"] = "42:2,AS" ∧
    parse_flags_from_filename "42:2,AS" = ["archived", "seen"] ∧
    ("archived" ∈ parse_flags_from_filename (build_maildir_filename 42 ["archived", "seen"]) ↔
      "archived" ∈ ["archived", "seen"]) :=
  ⟨by decide, by decide,
   (maildir_filename_roundtrip 42 ["archived", "seen"] (by decide)).2.2.2 "archived"⟩

/- ── Directory lookup lemmas ─────────────────────────────────────────────── -/

lemma dirLookup_remove_other (dir : Dir) (m n : String) (h : m ≠ n) :
    dirLookup (dirRemove dir n) m = dirLookup dir m := by
  induction dir with
  | nil => rfl
  | cons e t ih =>
    by_cases he : e.1 = n
    · have hm : ¬ e.1 = m := by rw [he]; exact fun hx => h hx.symm
      rw [dirRemove, if_pos he, dirLookup, if_neg hm]
      exact ih
    · rw [dirRemove, if_neg he, dirLookup]
      by_cases hm : e.1 = m
      · rw [if_pos hm, dirLookup, if_pos hm]
      · rw [if_neg hm, dirLookup, if_neg hm]
        exact ih

lemma dirLookup_remove_self (dir : Dir) (n : String) :
    dirLookup (dirRemove dir n) n = none := by
  induction dir with
  | nil => rfl
  | cons e t ih =>
    by_cases he : e.1 = n
    · rw [dirRemove, if_pos he]
      exact ih
    · rw [dirRemove, if_neg he, dirLookup, if_neg he]
      exact ih

lemma dirLookup_append (d1 d2 : Dir) (m : String) :
    dirLookup (d1 ++ d2) m =
      match dirLookup d1 m with
      | some v => some v
      | none => dirLookup d2 m := by
  induction d1 with
  | nil => rw [List.nil_append]; rfl
  | cons e t ih =>
    by_cases hm : e.1 = m
    · rw [List.cons_append, dirLookup, if_pos hm, dirLookup, if_pos hm]
    · rw [List.cons_append, dirLookup, if_neg hm, dirLookup, if_neg hm]
      exact ih

lemma dirLookup_write_self (dir : Dir) (n : String) (c : Bytes) :
    dirLookup (dirWrite dir n c) n = some c := by
  rw [dirWrite, dirLookup_append, dirLookup_remove_self]
  simp [dirLookup]

lemma dirLookup_write_other (dir : Dir) (m n : String) (c : Bytes) (h : m ≠ n) :
    dirLookup (dirWrite dir n c) m = dirLookup dir m := by
  rw [dirWrite, dirLookup_append, dirLookup_remove_other dir m n h]
  have hm : ¬ n = m := fun hx => h hx.symm
  cases hv : dirLookup dir m with
  | some v => rfl
  | none => simp [dirLookup, hm]

/-- Claim C7, counterexample: with a file already stored for UID 7, the
archive task does NOT skip the write — it deletes the old file and stores
the freshly fetched bytes, so the store changes. -/
theorem fetch_and_store_no_skip_counterexample :
    find_file_by_uid [("7:2,S", [1, 2, 3])] 7 = some "7:2,S" ∧
    (fetch_and_store [] "k" 1 (.ok (some ⟨[9, 9]⟩)) [("7:2,S", [1, 2, 3])] 7).2.2 =
      [("7:2,AS", [9, 9])] ∧
    dirLookup (fetch_and_store [] "k" 1 (.ok (some ⟨[9, 9]⟩))
        [("7:2,S", [1, 2, 3])] 7).2.2 "7:2,S" = none ∧
    dirLookup [("7:2,S", [1, 2, 3])] "7:2,S" = some [1, 2, 3] := by
  decide

/-- Claim C7, amended: when a file for the target UID already exists, the
archive task removes it and writes the newly fetched raw bytes under
`<uid>:2,AS`; every other file is unchanged. -/
theorem fetch_and_store_overwrites_existing :
    ∀ (pool : Pool) (key : String) (acquired : Nat) (dir : Dir) (uid : Nat)
      (email : FetchedEmail) (existing : String),
      find_file_by_uid dir uid = some existing →
      (fetch_and_store pool key acquired (.ok (some email)) dir uid).1 = .ok () ∧
      dirLookup (fetch_and_store pool key acquired (.ok (some email)) dir uid).2.2
        (build_maildir_filename uid ["archived", "seen"]) = some email.raw_source ∧
      (existing ≠ build_maildir_filename uid ["archived", "seen"] →
        dirLookup (fetch_and_store pool key acquired (.ok (some email)) dir uid).2.2
          existing = none) ∧
      (∀ name, name ≠ build_maildir_filename uid ["archived", "seen"] → name ≠ existing →
        dirLookup (fetch_and_store pool key acquired (.ok (some email)) dir uid).2.2
          name = dirLookup dir name) := by
  intro pool key acquired dir uid email existing hex
  have hres : (fetch_and_store pool key acquired (.ok (some email)) dir uid).2.2 =
      dirWrite (dirRemove dir existing) (build_maildir_filename uid ["archived", "seen"])
        email.raw_source := by
    simp [fetch_and_store, hex]
  refine ⟨by simp [fetch_and_store, hex], ?_, ?_, ?_⟩
  · rw [hres, dirLookup_write_self]
  · intro hne
    rw [hres, dirLookup_write_other _ _ _ _ hne, dirLookup_remove_self]
  · intro name h1 h2
    rw [hres, dirLookup_write_other _ _ _ _ h1, dirLookup_remove_other _ _ _ h2]

/-- Closed instance of `fetch_and_store_overwrites_existing`. -/
theorem fetch_and_store_overwrites_existing_witness :
    dirLookup (fetch_and_store [] "k" 1 (.ok (some ⟨[9, 9]⟩))
        [("7:2,S", [1, 2, 3]), ("8:2,S", [5])] 7).2.2
      (build_maildir_filename 7 ["archived", "seen"]) = some [9, 9] ∧
    dirLookup (fetch_and_store [] "k" 1 (.ok (some ⟨[9, 9]⟩))
        [("7:2,S", [1, 2, 3]), ("8:2,S", [5])] 7).2.2 "7:2,S" = none ∧
    dirLookup (fetch_and_store [] "k" 1 (.ok (some ⟨[9, 9]⟩))
        [("7:2,S", [1, 2, 3]), ("8:2,S", [5])] 7).2.2 "8:2,S" =
      dirLookup [("7:2,S", [1, 2, 3]), ("8:2,S", [5])] "8:2,S" :=
  have h := fetch_and_store_overwrites_existing [] "k" 1
    [("7:2,S", [1, 2, 3]), ("8:2,S", [5])] 7 ⟨[9, 9]⟩ "7:2,S" (by decide)
  ⟨h.2.1, h.2.2.1 (by decide), h.2.2.2 "8:2,S" (by decide) (by decide)⟩

lemma int_emod_eq_mod (x y : Int) : x.emod y = x % y := rfl

/-- Claim C8: a since/before string that fails the `%Y-%m-%d` parse
contributes nothing to the search criteria and causes no error; when no
criteria parts remain, `search_emails` returns an empty list with total 0
for every server oracle, i.e. without issuing any SEARCH or FETCH. -/
theorem search_emails_drops_bad_dates_and_skips_server :
    (∀ q ff sf s b, date_parse_ymd s = none →
      search_criteria q ff sf (some s) b = search_criteria q ff sf none b) ∧
    (∀ q ff sf s b, date_parse_ymd b = none →
      search_criteria q ff sf s (some b) = search_criteria q ff sf s none) ∧
    (∀ q ff sf s b searchOracle fetchOracle,
      search_criteria q ff sf s b = [] →
      search_emails q ff sf s b searchOracle fetchOracle = .ok ([], 0)) := by
  refine ⟨?_, ?_, ?_⟩
  · intro q ff sf s b h
    by_cases hs : s = "" <;> simp [search_criteria, hs, h]
  · intro q ff sf s b h
    by_cases hb : b = "" <;> simp [search_criteria, hb, h]
  · intro q ff sf s b searchOracle fetchOracle h
    simp [search_emails, h]

/-- Closed instance of `search_emails_drops_bad_dates_and_skips_server`:
with only a malformed since-date, the criteria are empty and the search
succeeds with an empty result even against oracles that would fail. -/
theorem search_emails_drops_bad_dates_witness :
    search_criteria none none none (some "not-a-date") none =
      search_criteria none none none none none ∧
    search_emails none none none (some "not-a-date") none
      (fun _ => .error "down") (fun _ => .error "down") = .ok ([], 0) :=
  ⟨search_emails_drops_bad_dates_and_skips_server.1 none none none "not-a-date" none
     (by decide),
   search_emails_drops_bad_dates_and_skips_server.2.2 none none none
     (some "not-a-date") none (fun _ => .error "down") (fun _ => .error "down")
     (by decide)⟩

/-- Claim C9: the pooled wrappers insert the borrowed session back only when
the protocol operation succeeds; on an operation error the error is
returned and the session is never inserted (the pool is untouched, so a
session absent at acquisition stays absent).  Likewise the archive task
returns its priority session exactly when the IMAP fetch succeeds. -/
theorem pooled_session_return_discipline :
    (∀ (T : Type) (pool : Pool) (key : String) (s : Nat)
        (f : Nat → Except String (T × Nat)) (e : String),
      f s = .error e →
      with_background_model pool key s f = (.error e, pool) ∧
      (sessionInPool pool s = false →
        sessionInPool (with_background_model pool key s f).2 s = false)) ∧
    (∀ (T : Type) (pool : Pool) (key : String) (s : Nat)
        (f : Nat → Except String (T × Nat)) (e : String),
      f s = .error e →
      with_priority_model pool key s f = (.error e, pool) ∧
      (sessionInPool pool s = false →
        sessionInPool (with_priority_model pool key s f).2 s = false)) ∧
    (∀ (T : Type) (pool : Pool) (key : String) (s : Nat)
        (f : Nat → Except String (T × Nat)) (t : T) (s' : Nat),
      f s = .ok (t, s') →
      with_background_model pool key s f = (.ok t, (pool_insert pool key s').1)) ∧
    (∀ (T : Type) (pool : Pool) (key : String) (s : Nat)
        (f : Nat → Except String (T × Nat)) (t : T) (s' : Nat),
      f s = .ok (t, s') →
      with_priority_model pool key s f = (.ok t, (pool_insert pool key s').1)) ∧
    (∀ (pool : Pool) (key : String) (acquired : Nat) (dir : Dir) (uid : Nat) (e : String),
      fetch_and_store pool key acquired (.error e) dir uid =
        (.error ("IMAP fetch failed: " ++ e), pool, dir) ∧
      (sessionInPool pool acquired = false →
        sessionInPool (fetch_and_store pool key acquired (.error e) dir uid).2.1
          acquired = false)) ∧
    (∀ (pool : Pool) (key : String) (acquired : Nat) (dir : Dir) (uid : Nat)
        (emailOpt : Option FetchedEmail),
      (fetch_and_store pool key acquired (.ok emailOpt) dir uid).2.1 =
        (pool_insert pool key acquired).1) := by
  refine ⟨?_, ?_, ?_, ?_, ?_, ?_⟩
  · intro T pool key s f e h
    refine ⟨by simp [with_background_model, h], ?_⟩
    intro habs
    simp [with_background_model, h, habs]
  · intro T pool key s f e h
    refine ⟨by simp [with_priority_model, h], ?_⟩
    intro habs
    simp [with_priority_model, h, habs]
  · intro T pool key s f t s' h
    simp [with_background_model, h]
  · intro T pool key s f t s' h
    simp [with_priority_model, h]
  · intro pool key acquired dir uid e
    exact ⟨rfl, fun habs => habs⟩
  · intro pool key acquired dir uid emailOpt
    cases emailOpt <;> rfl

/-- Closed instance of `pooled_session_return_discipline`. -/
theorem pooled_session_return_discipline_witness :
    with_background_model [("a@b-h", 5)] "a@b-h" 9
      (fun _ => (.error "io" : Except String (Nat × Nat))) = (.error "io", [("a@b-h", 5)]) ∧
    sessionInPool (with_background_model [("a@b-h", 5)] "a@b-h" 9
      (fun _ => (.error "io" : Except String (Nat × Nat)))).2 9 = false ∧
    with_priority_model [] "k" 3 (fun s => (.ok (0, s) : Except String (Nat × Nat))) =
      (.ok 0, (pool_insert [] "k" 3).1) ∧
    fetch_and_store [] "k" 3 (.error "io") [] 7 =
      (.error ("IMAP fetch failed: " ++ "io"), [], []) ∧
    (fetch_and_store [] "k" 3 (.ok (some ⟨[1]⟩)) [] 7).2.1 = (pool_insert [] "k" 3).1 :=
  ⟨(pooled_session_return_discipline.1 Nat [("a@b-h", 5)] "a@b-h" 9 _ "io" rfl).1,
   (pooled_session_return_discipline.1 Nat [("a@b-h", 5)] "a@b-h" 9 _ "io" rfl).2 (by decide),
   pooled_session_return_discipline.2.2.2.1 Nat [] "k" 3 _ 0 3 rfl,
   (pooled_session_return_discipline.2.2.2.2.1 [] "k" 3 [] 7 "io").1,
   pooled_session_return_discipline.2.2.2.2.2 [] "k" 3 [] 7 (some ⟨[1]⟩)⟩

/-- Claim C10: with a mailbox reporting 0 messages both fetch functions
return empty results immediately, independently of the server oracle (no
FETCH is issued), and the guarded u32 subtraction `total - 1` in the range
clamp is exact (no underflow) for every total the guard lets through. -/
theorem zero_total_early_return :
    (∀ page limit server, fetch_emails_page 0 page limit server = ([], 0, false, [])) ∧
    (∀ start_index end_index server,
      fetch_emails_range 0 start_index end_index server = ([], 0, [])) ∧
    (∀ total, 1 ≤ total → total < U32MOD → u32_sub total 1 = total - 1) := by
  refine ⟨?_, ?_, ?_⟩
  · intro page limit server
    simp [fetch_emails_page]
  · intro start_index end_index server
    simp [fetch_emails_range]
  · intro total h1 h2
    have h2x : total < 4294967296 := by simpa [U32MOD] using h2
    simp only [u32_sub, U32MOD, int_emod_eq_mod]
    push_cast
    omega

/-- Closed instance of `zero_total_early_return`. -/
theorem zero_total_early_return_witness :
    fetch_emails_page 0 3 50 seqServer = ([], 0, false, []) ∧
    fetch_emails_range 0 0 50 seqServer = ([], 0, []) ∧
    u32_sub 7 1 = 7 - 1 :=
  ⟨zero_total_early_return.1 3 50 seqServer,
   zero_total_early_return.2.1 0 50 seqServer,
   zero_total_early_return.2.2 7 (by decide) (by decide)⟩

/- ── Pagination lemmas ───────────────────────────────────────────────────── -/

lemma splitParsed_aux (fetches : List Fetch) :
    ∀ (acc1 : List EmailHeader) (acc2 : List (Option Nat)),
      fetches.foldl
        (fun acc f =>
          match parse_header_from_fetch f with
          | .ok header => (acc.1 ++ [header], acc.2)
          | .error _ => (acc.1, acc.2 ++ [f.uid]))
        (acc1, acc2) =
      (acc1 ++ fetches.filterMap parsedHeader, acc2 ++ fetches.filterMap skippedUid) := by
  induction fetches with
  | nil => intro acc1 acc2; simp
  | cons f t ih =>
    intro acc1 acc2
    cases hp : parse_header_from_fetch f with
    | ok header =>
      have h1 : parsedHeader f = some header := by simp [parsedHeader, hp, Except.toOption]
      have h2 : skippedUid f = none := by simp [skippedUid, hp]
      simp only [List.foldl_cons, hp, List.filterMap_cons, h1, h2]
      rw [ih]
      simp
    | error e =>
      have h1 : parsedHeader f = none := by simp [parsedHeader, hp, Except.toOption]
      have h2 : skippedUid f = some f.uid := by simp [skippedUid, hp]
      simp only [List.foldl_cons, hp, List.filterMap_cons, h1, h2]
      rw [ih]
      simp

lemma splitParsed_eq (fetches : List Fetch) :
    splitParsed fetches =
      (fetches.filterMap parsedHeader, fetches.filterMap skippedUid) := by
  have h := splitParsed_aux fetches [] []
  simpa [splitParsed] using h

lemma i64_as_u32_of_bounds (v : Int) (h1 : 0 ≤ v) (h2 : v < 4294967296) :
    i64_as_u32 v = v.toNat := by
  simp only [i64_as_u32, U32MOD, int_emod_eq_mod]
  omega

lemma u32_mul_of_bounds (a b : Nat) (h : a * b < U32MOD) : u32_mul a b = a * b := by
  simp only [u32_mul]
  exact Nat.mod_eq_of_lt h

/-- Closed form of `fetch_emails_page` for non-empty mailboxes under the
no-overflow side conditions: the computed u32 range agrees with the exact
arithmetic `start = max(1, N - page*limit + 1)`, `stop = max(1, N -
(page-1)*limit)` (written with truncated Nat subtraction). -/
lemma fetch_emails_page_closed_form
    (total page limit : Nat) (server : Nat → Nat → List Fetch)
    (htotal1 : 1 ≤ total) (htotal2 : total < U32MOD)
    (hpage : 1 ≤ page) (hov : page * limit < U32MOD)
    (hlim : limit = 0 → total + 1 < U32MOD) :
    fetch_emails_page total page limit server =
      if max 1 (total - (page - 1) * limit) < max 1 (total + 1 - page * limit) then
        ([], total, false, [])
      else
        (((server (max 1 (total + 1 - page * limit))
             (max 1 (total - (page - 1) * limit))).filterMap parsedHeader).reverse,
         total,
         decide (1 < max 1 (total + 1 - page * limit)),
         (server (max 1 (total + 1 - page * limit))
             (max 1 (total - (page - 1) * limit))).filterMap skippedUid) := by
  have hmod : U32MOD = 4294967296 := rfl
  rw [hmod] at htotal2 hov hlim
  have hmul1 : u32_mul page limit = page * limit :=
    u32_mul_of_bounds page limit (by rw [hmod]; omega)
  have hmul2 : u32_mul (u32_sub page 1) limit = (page - 1) * limit := by
    by_cases h0 : limit = 0
    · subst h0
      simp [u32_mul, U32MOD]
    · have hpageb : page < 4294967296 := by
        have : page ≤ page * limit := Nat.le_mul_of_pos_right page (by omega)
        omega
      have hsub : u32_sub page 1 = page - 1 := by
        simp only [u32_sub, U32MOD, int_emod_eq_mod]
        push_cast
        omega
      rw [hsub]
      refine u32_mul_of_bounds (page - 1) limit ?_
      rw [hmod]
      have : (page - 1) * limit ≤ page * limit := Nat.mul_le_mul_right limit (by omega)
      omega
  have hstart : i64_as_u32 (max 1 ((total : Int) - (u32_mul page limit : Nat) + 1)) =
      max 1 (total + 1 - page * limit) := by
    rw [hmul1]
    rw [i64_as_u32_of_bounds _ (by omega) ?hb]
    · omega
    case hb =>
      rcases Nat.eq_zero_or_pos limit with h0 | h0
      · have := hlim h0
        subst h0
        simp only [Nat.mul_zero]
        omega
      · have h1 : 1 ≤ page * limit := by
          have := Nat.mul_le_mul hpage h0
          omega
        omega
  have hstop : i64_as_u32 (max 1 ((total : Int) - (u32_mul (u32_sub page 1) limit : Nat))) =
      max 1 (total - (page - 1) * limit) := by
    rw [hmul2]
    rw [i64_as_u32_of_bounds _ (by omega) (by omega)]
    omega
  have hne : ¬ total = 0 := by omega
  simp only [fetch_emails_page, if_neg hne, hstart, hstop, splitParsed_eq]


/-- Claim C1, amended (u32 no-overflow side conditions added): for every
mailbox with N ≥ 1 messages, every page ≥ 1 and every limit such that
page·limit < 2^32 (and N + 1 < 2^32 when limit = 0), `fetch_emails_page`
computes start = max(1, N − page·limit + 1) and stop = max(1, N −
(page−1)·limit); if stop < start it returns an empty list with
hasMore = false; otherwise it returns the parsed headers of the server's
`start:stop` response reversed to newest-first with hasMore = (start > 1),
and every item whose header fails to parse contributes its UID to the
skipped list instead of aborting the batch. -/
theorem fetch_emails_page_formula
    (total page limit : Nat) (server : Nat → Nat → List Fetch)
    (htotal1 : 1 ≤ total) (htotal2 : total < U32MOD)
    (hpage : 1 ≤ page) (hov : page * limit < U32MOD)
    (hlim : limit = 0 → total + 1 < U32MOD) :
    fetch_emails_page total page limit server =
      if max 1 (total - (page - 1) * limit) < max 1 (total + 1 - page * limit) then
        ([], total, false, [])
      else
        (((server (max 1 (total + 1 - page * limit))
             (max 1 (total - (page - 1) * limit))).filterMap parsedHeader).reverse,
         total,
         decide (1 < max 1 (total + 1 - page * limit)),
         (server (max 1 (total + 1 - page * limit))
             (max 1 (total - (page - 1) * limit))).filterMap skippedUid) :=
  fetch_emails_page_closed_form total page limit server htotal1 htotal2 hpage hov hlim

/-- Closed instance of `fetch_emails_page_formula` at N = 5, page = 1,
limit = 2 against a server whose response also contains one unparseable
item: range 4:5, newest-first, hasMore, and the bad item's UID skipped. -/
theorem fetch_emails_page_formula_witness :
    (fetch_emails_page 5 1 2 mixedServer).1.map (fun h => h.seq) = [5, 4] ∧
    (fetch_emails_page 5 1 2 mixedServer).2.2.1 = true ∧
    (fetch_emails_page 5 1 2 mixedServer).2.2.2 = [some 999] := by
  have h := fetch_emails_page_formula 5 1 2 mixedServer (by decide) (by decide)
    (by decide) (by decide) (by decide)
  rw [h]
  refine ⟨by decide, by decide, by decide⟩

/-- Claim C1, counterexample: at N = 5, page = 65536, limit = 65536 the
claim's formulas give start = stop = 1, a non-empty single-message range
(the parsed, reversed header list of `1:1` is non-empty), but the u32
product page·limit wraps to 0 inside the code and the empty page is
returned instead. -/
theorem fetch_emails_page_formula_counterexample :
    fetch_emails_page 5 65536 65536 seqServer = ([], 5, false, []) ∧
    max 1 ((5 : Int) - 65536 * 65536 + 1) = 1 ∧
    max 1 ((5 : Int) - (65536 - 1) * 65536) = 1 ∧
    ((seqServer 1 1).filterMap parsedHeader).reverse ≠ [] := by
  refine ⟨by decide, by decide, by decide, by decide⟩

/-- Claim C2, amended (u32 no-overflow side condition added): for every
mailbox with N ≥ 1 messages and limit ≥ 1, whenever page·limit ≥ N + limit
and page·limit < 2^32, `fetch_emails_page` returns the clamped
single-message range 1:1 — the oldest message — with hasMore = false, never
a genuinely empty page.  The spec's own instance N = 5, page = 3, limit = 2
(the last page, range 1:1, hasMore = false) is stated separately because it
does not satisfy page·limit ≥ N + limit. -/
theorem fetch_emails_page_beyond_last_page :
    (∀ (total page limit : Nat) (server : Nat → Nat → List Fetch),
      1 ≤ total → total < U32MOD → 1 ≤ limit →
      total + limit ≤ page * limit → page * limit < U32MOD →
      fetch_emails_page total page limit server =
        (((server 1 1).filterMap parsedHeader).reverse, total, false,
         (server 1 1).filterMap skippedUid) ∧
      (∀ (f : Fetch) (header : EmailHeader), server 1 1 = [f] →
        parse_header_from_fetch f = .ok header →
        (fetch_emails_page total page limit server).1 = [header])) ∧
    (∀ server : Nat → Nat → List Fetch,
      fetch_emails_page 5 3 2 server =
        (((server 1 1).filterMap parsedHeader).reverse, 5, false,
         (server 1 1).filterMap skippedUid)) := by
  constructor
  · intro total page limit server h1 h2 h3 h4 h5
    have hpage : 1 ≤ page := by
      rcases Nat.eq_zero_or_pos page with h0 | h0
      · subst h0
        rw [Nat.zero_mul] at h4
        omega
      · exact h0
    have hsub : (page - 1) * limit = page * limit - limit := by
      rw [Nat.sub_mul, Nat.one_mul]
    have hcf := fetch_emails_page_closed_form total page limit server h1 h2 hpage h5
      (fun h0 => absurd h0 (by omega))
    have hstart : max 1 (total + 1 - page * limit) = 1 := by omega
    have hstop : max 1 (total - (page - 1) * limit) = 1 := by
      rw [hsub]
      omega
    rw [hstart, hstop, if_neg (by omega : ¬ (1 : Nat) < 1)] at hcf
    have hd : (decide ((1 : Nat) < 1)) = false := rfl
    rw [hd] at hcf
    refine ⟨hcf, ?_⟩
    intro f header hsrv hp
    rw [hcf, hsrv]
    simp [parsedHeader, hp, Except.toOption]
  · intro server
    have hcf := fetch_emails_page_closed_form 5 3 2 server (by decide) (by decide)
      (by decide) (by decide) (by decide)
    norm_num at hcf
    exact hcf

/-- Closed instance of `fetch_emails_page_beyond_last_page`: page 4 of a
5-message mailbox with limit 2 is beyond the last page and yields the 1:1
single-message page, and the spec's page-3 instance yields the same. -/
theorem fetch_emails_page_beyond_last_page_witness :
    fetch_emails_page 5 4 2 seqServer =
      (((seqServer 1 1).filterMap parsedHeader).reverse, 5, false,
       (seqServer 1 1).filterMap skippedUid) ∧
    (fetch_emails_page 5 4 2 seqServer).1.map (fun h => h.seq) = [1] ∧
    fetch_emails_page 5 3 2 seqServer =
      (((seqServer 1 1).filterMap parsedHeader).reverse, 5, false,
       (seqServer 1 1).filterMap skippedUid) := by
  have h := fetch_emails_page_beyond_last_page.1 5 4 2 seqServer (by decide) (by decide)
    (by decide) (by decide) (by decide)
  refine ⟨h.1, ?_, fetch_emails_page_beyond_last_page.2 seqServer⟩
  rw [h.1]
  decide

/-- Claim C2, counterexample: at N = 5, limit = 65536, page = 131072 the
page is far beyond the last one (page·limit ≥ N + limit), yet the code
returns a genuinely empty page, not the single-message 1:1 page the claim
promises: the wrapped u32 product makes start = 6 > stop = 1. -/
theorem fetch_emails_page_beyond_last_page_counterexample :
    5 + 65536 ≤ 131072 * 65536 ∧
    fetch_emails_page 5 131072 65536 seqServer = ([], 5, false, []) ∧
    ((seqServer 1 1).filterMap parsedHeader).reverse ≠ [] := by
  refine ⟨by decide, by decide, by decide⟩

end MailVault
